import Mathlib

/-!
Shallow embedding of the BA-AD-Core logging pipeline.

Covered source files:
  * src/utils.rs        — contains_url, format_urls, level_to_index,
                          get_level_visual_length
  * src/formatter.rs    — ConsoleFormatter::format_event and its helpers
                          (FieldCollector, FieldFormatter)
  * src/async_writer.rs — AsyncWriter, BufferedWriter, background_writer,
                          handle_message

Modelling conventions:
  * Rust strings are Lean `String` in the formatter and `List Char` in the
    URL scanner (the regex `https?://[^\s]+|ftp://[^\s]+` is embedded as an
    explicit leftmost scan; the `\s` class is modelled with
    `Char.isWhitespace`, the ASCII whitespace approximation).
  * ANSI styling (`owo_colors` combinators) is modelled as tagged segments
    (`Seg.styled`): the visible text of a segment excludes the non-printing
    escape sequences the combinators would insert around it, which is
    exactly the "visual width" notion of the source.
  * Bytes are `Nat`; the background worker's stdout is modelled by returning
    the list of bytes each operation writes out.
  * The timestamp (`Local::now()` rendered as HH:MM:SS) is an input
    parameter `ts` of the embedded formatter.
  * Names follow the source; `*_PREFIX` constants and `write_level_prefix`
    are renamed to `*_BADGE` / `write_level_badge`.
-/

namespace BAADCore

/-- Severity levels of tracing events (tracing::Level, five ordered tiers). -/
inductive Level
  | error | warn | info | debug | trace
  deriving DecidableEq, BEq, Repr

/-- The five bracketed level badges, in severity order (LEVEL_PREFIXES in the source). -/
def LEVEL_BADGES : List String := ["[ERROR]", "[WARN]", "[INFO]", "[DEBUG]", "[TRACE]"]

/-- Badge shown for successful INFO events (SUCCESS_PREFIX in the source). -/
def SUCCESS_BADGE : String := "[SUCCESS]"

/-- Badge of the cause line (CAUSE_PREFIX in the source). -/
def CAUSE_BADGE : String := "[CAUSE]"

/-- utils::level_to_index. -/
def level_to_index : Level → Nat
  | .error => 0
  | .warn => 1
  | .info => 2
  | .debug => 3
  | .trace => 4

/-- utils::get_level_visual_length. -/
def get_level_visual_length (level : Level) (is_success : Bool) : Nat :=
  if is_success then 9
  else
    match level with
    | .error | .debug | .trace => 7
    | .warn | .info => 6

/-! URL scanning (utils::contains_url / utils::format_urls).  The regex
`https?://[^\s]+|ftp://[^\s]+` with Rust `find_iter` semantics: repeatedly
find the leftmost position where one of the three scheme literals occurs and
is followed by at least one non-whitespace character, and take the maximal
non-whitespace run from the scheme onwards. -/

/-- Length of the scheme literal matched at the very start of `l`, if any
(the `https?://` alternative prefers the longer `https://` form, and the two
forms can never both match at one position). -/
def scheme_len (l : List Char) : Option Nat :=
  if l.take 8 = "https://".data then some 8
  else if l.take 7 = "http://".data then some 7
  else if l.take 6 = "ftp://".data then some 6
  else none

/-- Regex match anchored at the start of `l`: the scheme literal followed by
the maximal (greedy `[^\s]+`, hence nonempty) run of non-whitespace
characters.  Returns the matched URL and the remaining input. -/
def urlMatch (l : List Char) : Option (List Char × List Char) :=
  match scheme_len l with
  | none => none
  | some n =>
      let rest := l.drop n
      let run := rest.takeWhile (fun c => !c.isWhitespace)
      if run.isEmpty then none
      else some (l.take n ++ run, rest.dropWhile (fun c => !c.isWhitespace))

/-- Leftmost regex match in `l`: splits `l` as `before ++ url ++ rest` at the
first position where `urlMatch` succeeds. -/
def urlScan : List Char → Option (List Char × List Char × List Char)
  | [] => none
  | c :: cs =>
      match urlMatch (c :: cs) with
      | some (u, r) => some ([], u, r)
      | none =>
          match urlScan cs with
          | some (b, u, r) => some (c :: b, u, r)
          | none => none

/-- utils::contains_url: the regex matches somewhere in the string. -/
def contains_url (s : String) : Bool := (urlScan s.data).isSome

/-- One piece of the URL decomposition of a string: either a run of
non-URL text or one URL match. -/
inductive USeg
  | text (t : List Char)
  | url (u : List Char)
  deriving DecidableEq, Repr

/-- Characters covered by a decomposition piece. -/
def USeg.content : USeg → List Char
  | .text t => t
  | .url u => u

/-- Decomposition of a string into maximal URL matches and the (nonempty)
text chunks between and around them, in original order.  The `fuel`
argument is only a termination device: each step consumes the nonempty
leftmost match, so `fuel = l.length + 1` always suffices. -/
def splitUrlsGo : Nat → List Char → List USeg
  | 0, _ => []
  | fuel + 1, l =>
      match urlScan l with
      | none => if l.isEmpty then [] else [USeg.text l]
      | some (b, u, r) =>
          (if b.isEmpty then [] else [USeg.text b]) ++ USeg.url u :: splitUrlsGo fuel r

/-- The URL/text decomposition computed by the `find_iter` loop of
utils::format_urls. -/
def splitUrls (l : List Char) : List USeg := splitUrlsGo (l.length + 1) l

/-- Application of the two styling functions to a decomposition, concatenated
back in original order. -/
def renderSegs (f g : List Char → List Char) (segs : List USeg) : List Char :=
  (segs.map (fun s =>
    match s with
    | .text t => f t
    | .url u => g u)).flatten

/-- Concatenation of the raw contents of a decomposition. -/
def joinSegs (segs : List USeg) : List Char := (segs.map USeg.content).flatten

/-- Loop of utils::format_urls after the first match: emit the styled gap
text (only when nonempty, per `mat.start() > last_end` and the final
`last_end < content.len()` guard), then the styled URL, then continue after
the match.  `fuel` is a termination device as in `splitUrlsGo`. -/
def formatUrlsGo (f g : List Char → List Char) : Nat → List Char → List Char
  | 0, _ => []
  | fuel + 1, l =>
      match urlScan l with
      | none => if l.isEmpty then [] else f l
      | some (b, u, r) =>
          (if b.isEmpty then [] else f b) ++ g u ++ formatUrlsGo f g fuel r

/-- utils::format_urls: if the regex does not match at all, the text styler
is applied to the whole content; otherwise the match loop runs. -/
def format_urls (l : List Char) (f g : List Char → List Char) : List Char :=
  match urlScan l with
  | none => f l
  | some (b, u, r) => (if b.isEmpty then [] else f b) ++ g u ++ formatUrlsGo f g (r.length + 1) r

/-! Styling model for the formatter. -/

/-- Terminal color used by an owo_colors combinator chain. -/
inductive ColorName
  | red | yellow | blue | cyan | magenta | green | brightBlack
  | truecolor (r g b : Nat)
  deriving DecidableEq, Repr

/-- Style attached to a piece of output by the combinator chain of the
source (color plus the bold/italic/underline modifiers actually used). -/
structure Style where
  color : ColorName
  bold : Bool := false
  italic : Bool := false
  underline : Bool := false
  deriving DecidableEq, Repr

/-- One piece of formatter output: plain text, or text wrapped in the ANSI
escape sequences of a style.  The escape bytes themselves are non-printing,
so the visible text of both forms is just the payload string. -/
inductive Seg
  | plain (s : String)
  | styled (st : Style) (s : String)
  deriving DecidableEq, Repr

/-- Visible (printed) characters of a segment, excluding escape sequences. -/
def visibleSeg : Seg → String
  | .plain s => s
  | .styled _ s => s

/-- Visible text of a whole output, in order. -/
def visibleStr (segs : List Seg) : String :=
  String.mk ((segs.map (fun s => (visibleSeg s).data)).flatten)

/-- formatter::ColorSupport. -/
inductive ColorSupport
  | none | ansi | extended | truecolor
  deriving DecidableEq, Repr

/-- formatter::FormatterConfig. -/
structure FormatterConfig where
  color_support : ColorSupport
  include_timestamps : Bool
  include_spans : Bool
  deriving DecidableEq, Repr

/-- The `!matches!(color_support, ColorSupport::None)` test used throughout
the formatter. -/
def use_colors (cfg : FormatterConfig) : Bool :=
  match cfg.color_support with
  | .none => false
  | _ => true

/-- Spaces used for padding (`{:width$}` with an empty payload). -/
def spacesStr (n : Nat) : String := String.mk (List.replicate n ' ')

/-- Right-alignment to a field of width 9 (`{:>9}` in the source). -/
def padTo9 (s : String) : String := spacesStr (9 - s.length) ++ s

/-- Per-level color of badges, field names and values. -/
def levelColor : Level → ColorName
  | .error => .red
  | .warn => .yellow
  | .info => .blue
  | .debug => .cyan
  | .trace => .magenta

/-- ConsoleFormatter::write_level_prefix, under the badge naming convention
of this file. -/
def write_level_badge (cfg : FormatterConfig) (level : Level) (is_success : Bool) : List Seg :=
  let uc := use_colors cfg
  if is_success then
    if uc then
      let visual_length := get_level_visual_length level is_success
      let padding := 9 - visual_length
      [Seg.plain (spacesStr padding), Seg.styled { color := .green, bold := true } SUCCESS_BADGE]
    else
      [Seg.plain (padTo9 SUCCESS_BADGE)]
  else
    let badge := LEVEL_BADGES.getD (level_to_index level) ""
    if uc then
      let visual_length := get_level_visual_length level is_success
      let padding := 9 - visual_length
      [Seg.plain (spacesStr padding), Seg.styled { color := levelColor level, bold := true } badge]
    else
      [Seg.plain (padTo9 badge)]

/-- ConsoleFormatter::write_timestamp, with the rendered clock time `ts`
passed in as a parameter. -/
def write_timestamp (cfg : FormatterConfig) (ts : String) : List Seg :=
  if use_colors cfg then [Seg.styled { color := .brightBlack } ts] else [Seg.plain ts]

/-- FieldCollector::has_success_field. -/
def has_success_field (fields : List (String × String)) : Bool :=
  fields.any (fun p => p.1 == "success" && p.2 == "true")

/-- FieldCollector::is_simple_message. -/
def is_simple_message (fields : List (String × String)) : Bool :=
  fields.length == 1 &&
    (match fields.head? with
     | some p => p.1 == "message"
     | none => false)

/-- FieldCollector::get_cause_value: value of the first field named "cause". -/
def get_cause_value (fields : List (String × String)) : Option String :=
  (fields.find? (fun p => p.1 == "cause")).map (fun p => p.2)

/-- The `is_success` classification computed in format_event. -/
def event_is_success (level : Level) (fields : List (String × String)) : Bool :=
  (level == Level.info) && has_success_field fields

/-- FieldFormatter::write_colored_value (the URL branch inlines
FieldFormatter::format_with_urls / format_by_level). -/
def write_colored_value (cfg : FormatterConfig) (level : Level) (is_success : Bool)
    (value : String) : List Seg :=
  if !(use_colors cfg) then [Seg.plain value]
  else if is_success then [Seg.styled { color := .green, italic := true } value]
  else if !(contains_url value) then
    [Seg.styled { color := levelColor level, italic := true } value]
  else
    (splitUrls value.data).map (fun s =>
      match s with
      | .text t => Seg.styled { color := levelColor level, italic := true } (String.mk t)
      | .url u =>
          Seg.styled { color := levelColor level, italic := true, underline := true }
            (String.mk u))

/-- FieldFormatter::write_colored_field. -/
def write_colored_field (cfg : FormatterConfig) (level : Level) (is_success : Bool)
    (name value : String) : List Seg :=
  if is_success then
    Seg.styled { color := .green, italic := true } name :: Seg.plain "=" ::
      write_colored_value cfg level is_success value
  else
    Seg.styled { color := levelColor level, italic := true } name :: Seg.plain "=" ::
      write_colored_value cfg level is_success value

/-- FieldFormatter::write_field. -/
def write_field (cfg : FormatterConfig) (level : Level) (is_success : Bool)
    (name value : String) (field_count : Nat) (is_first : Bool) : List Seg :=
  let uc := use_colors cfg
  if field_count == 1 then
    Seg.plain ": " ::
      (if uc then write_colored_value cfg level is_success value else [Seg.plain value])
  else
    let sep := if is_first then ": " else ", "
    Seg.plain sep ::
      (if uc then write_colored_field cfg level is_success name value
       else [Seg.plain (name ++ "=" ++ value)])

/-- FieldFormatter::write_fields: the message field first, then the
non-structural fields in order. -/
def write_fields (cfg : FormatterConfig) (level : Level) (is_success : Bool)
    (fields : List (String × String)) : List Seg :=
  let nmf := fields.filter
    (fun p => !(p.1 == "message") && !(p.1 == "success") && !(p.1 == "cause"))
  let msgSegs : List Seg :=
    match fields.find? (fun p => p.1 == "message") with
    | some p => [Seg.plain p.2]
    | none => []
  msgSegs ++
    (nmf.enum.map (fun ie => write_field cfg level is_success ie.2.1 ie.2.2 nmf.length
      (ie.1 == 0))).flatten

/-- ConsoleFormatter::write_simple_message. -/
def write_simple_message (cfg : FormatterConfig) (level : Level) (is_success : Bool)
    (fields : List (String × String)) : List Seg :=
  write_level_badge cfg level is_success ++ [Seg.plain " "] ++
    (match fields.head? with
     | some p => [Seg.plain p.2]
     | none => [])

/-- ConsoleFormatter::write_cause_line. -/
def write_cause_line (cfg : FormatterConfig) (ts : String) (cause_value : String) : List Seg :=
  let uc := use_colors cfg
  let tsSegs := if cfg.include_timestamps then write_timestamp cfg ts ++ [Seg.plain " "] else []
  let badgeSegs :=
    if uc then
      [Seg.plain (spacesStr (9 - 7)),
       Seg.styled { color := .truecolor 255 165 0, bold := true } CAUSE_BADGE,
       Seg.plain " "]
    else
      [Seg.plain (padTo9 CAUSE_BADGE ++ " ")]
  let valueSegs :=
    if uc && contains_url cause_value then
      (splitUrls cause_value.data).map (fun s =>
        match s with
        | .text t => Seg.plain (String.mk t)
        | .url u =>
            Seg.styled { color := .truecolor 255 165 0, italic := true, underline := true }
              (String.mk u))
    else
      [Seg.plain cause_value]
  tsSegs ++ badgeSegs ++ valueSegs ++ [Seg.plain "\n"]

/-- ConsoleFormatter::format_event over the collected fields, in emission
order.  Output is the segment list of one newline-terminated line,
optionally followed by the newline-terminated cause line. -/
def format_event (cfg : FormatterConfig) (ts : String) (level : Level)
    (fields : List (String × String)) : List Seg :=
  let is_success := event_is_success level fields
  if is_simple_message fields && !cfg.include_timestamps then
    write_simple_message cfg level is_success fields ++ [Seg.plain "\n"]
  else
    (if cfg.include_timestamps then write_timestamp cfg ts ++ [Seg.plain " "] else [])
    ++ write_level_badge cfg level is_success
    ++ [Seg.plain " "]
    ++ write_fields cfg level is_success fields
    ++ [Seg.plain "\n"]
    ++ (match get_cause_value fields with
        | some v => write_cause_line cfg ts v
        | none => [])

/-! Asynchronous buffered writer (src/async_writer.rs). -/

/-- async_writer::WriterMessage. -/
inductive WriterMessage
  | data (d : List Nat)
  | flush
  | shutdown
  deriving DecidableEq, Repr

/-- async_writer::BufferedWriter: the byte buffer plus its capacity
threshold.  The owned stdout handle is modelled by returning the bytes each
operation writes out. -/
structure BufferedWriter where
  buffer : List Nat
  capacity : Nat
  deriving DecidableEq, Repr

/-- BufferedWriter::flush: no-op when empty, otherwise write the whole
buffer to the stream and clear it.  A stream write error is only reported to
stderr in the source, so the cleared-buffer state is unconditional. -/
def BufferedWriter.flush (w : BufferedWriter) : BufferedWriter × List Nat :=
  if w.buffer.isEmpty then (w, [])
  else ({ w with buffer := [] }, w.buffer)

/-- BufferedWriter::push: append, then flush when the threshold is reached. -/
def BufferedWriter.push (w : BufferedWriter) (d : List Nat) : BufferedWriter × List Nat :=
  let w2 : BufferedWriter := { w with buffer := w.buffer ++ d }
  if w2.capacity ≤ w2.buffer.length then w2.flush else (w2, [])

/-- async_writer::handle_message: returns the new writer state, the bytes
written, and whether the worker loop must stop. -/
def handle_message : WriterMessage → BufferedWriter → BufferedWriter × List Nat × Bool
  | .data d, w => let r := w.push d; (r.1, r.2, false)
  | .flush, w => let r := w.flush; (r.1, r.2, false)
  | .shutdown, w => let r := w.flush; (r.1, r.2, true)

/-- One observable input of the worker's `select!` loop: a channel message,
a flush-interval tick, or the channel reporting closure (all senders gone). -/
inductive WorkerEvent
  | msg (m : WriterMessage)
  | tick
  | closed
  deriving DecidableEq, Repr

/-- async_writer::background_writer over a finite trace of inputs, in
arrival order (the inner `try_recv` drain only batches messages and does not
change the processing order).  Returns the final writer state, the bytes
written to the stream in order, and whether the loop returned; `false` means
the trace ended with the loop still waiting. -/
def background_writer : List WorkerEvent → BufferedWriter → BufferedWriter × List Nat × Bool
  | [], w => (w, [], false)
  | .closed :: _, w =>
      let r := w.flush
      (r.1, r.2, true)
  | .tick :: es, w =>
      let r := w.flush
      let rest := background_writer es r.1
      (rest.1, r.2 ++ rest.2.1, rest.2.2)
  | .msg m :: es, w =>
      let h := handle_message m w
      if h.2.2 then (h.1, h.2.1, true)
      else
        let rest := background_writer es h.1
        (rest.1, h.2.1 ++ rest.2.1, rest.2.2)

/-- crossbeam_channel::Sender::try_send error cases. -/
inductive TrySendError
  | full
  | disconnected
  deriving DecidableEq, Repr

/-- The bounded channel as seen from a sender: pending messages, capacity,
and whether the receiving worker is gone. -/
structure Channel where
  queue : List WriterMessage
  cap : Nat
  closed : Bool
  deriving DecidableEq, Repr

/-- Non-blocking try_send on the bounded channel. -/
def Channel.try_send (ch : Channel) (m : WriterMessage) : Except TrySendError Channel :=
  if ch.closed then Except.error TrySendError.disconnected
  else if ch.cap ≤ ch.queue.length then Except.error TrySendError.full
  else Except.ok { ch with queue := ch.queue ++ [m] }

/-- The io::ErrorKind actually produced by the writer front end. -/
inductive IoErrorKind
  | brokenPipe
  deriving DecidableEq, Repr

/-- AsyncWriter::write_data: try_send of a Data message, with both try_send
failures mapped to one BrokenPipe error. -/
def write_data (ch : Channel) (d : List Nat) : Except IoErrorKind Channel :=
  match ch.try_send (WriterMessage.data d) with
  | Except.ok ch2 => Except.ok ch2
  | Except.error _ => Except.error IoErrorKind.brokenPipe

/-- AsyncWriter::flush_now: try_send of a Flush message. -/
def flush_now (ch : Channel) : Except IoErrorKind Channel :=
  match ch.try_send WriterMessage.flush with
  | Except.ok ch2 => Except.ok ch2
  | Except.error _ => Except.error IoErrorKind.brokenPipe

/-- Producer-visible pipeline state: the channel plus the bytes that have
already reached the underlying output stream. -/
structure PipeState where
  chan : Channel
  out : List Nat
  deriving DecidableEq, Repr

/-- The io::Write impl of AsyncWriter: `write` enqueues and reports the full
length; it never touches the output stream itself. -/
def async_writer_write (s : PipeState) (buf : List Nat) : Except IoErrorKind (PipeState × Nat) :=
  match write_data s.chan buf with
  | Except.ok ch2 => Except.ok ({ chan := ch2, out := s.out }, buf.length)
  | Except.error e => Except.error e

/-- No-color, no-timestamp formatter configuration used by the concrete
snapshot claims. -/
def cfg_plain : FormatterConfig :=
  { color_support := ColorSupport.none, include_timestamps := false, include_spans := false }

/-- Field list of the ERROR snapshot example. -/
def c1_fields : List (String × String) :=
  [("message", "API endpoint not found"),
   ("url", "https://api.example.com/v1/users"),
   ("status", "404")]

/-! Theorems. -/

/-- Flushing always leaves an empty buffer. -/
theorem flush_buffer_empty (w : BufferedWriter) : (w.flush).1.buffer = [] := by
  unfold BufferedWriter.flush
  split
  · next h => simpa [List.isEmpty_iff] using h
  · rfl

/-- Flushing an empty buffer is a complete no-op. -/
theorem flush_of_empty (w : BufferedWriter) (h : w.buffer = []) : w.flush = (w, []) := by
  unfold BufferedWriter.flush
  simp [h]

/-- C9: processing a Flush message on an empty buffer writes nothing, raises
no error and leaves the state unchanged; after any flush the buffer is
empty, so a second Flush right after is a no-op (idempotence). -/
theorem flush_message_idempotent (w : BufferedWriter) :
    (w.buffer = [] → handle_message WriterMessage.flush w = (w, [], false))
  ∧ (handle_message WriterMessage.flush w).1.buffer = []
  ∧ handle_message WriterMessage.flush (handle_message WriterMessage.flush w).1
      = ((handle_message WriterMessage.flush w).1, [], false) := by
  refine ⟨fun h => ?_, ?_, ?_⟩
  · simp [handle_message, flush_of_empty w h]
  · simpa [handle_message] using flush_buffer_empty w
  · have h2 := flush_buffer_empty w
    simp [handle_message, flush_of_empty _ h2]

/-- Witness for C9 at concrete buffers. -/
theorem flush_message_idempotent_witness :
    handle_message WriterMessage.flush ({ buffer := [], capacity := 5 } : BufferedWriter)
      = (({ buffer := [], capacity := 5 } : BufferedWriter), [], false)
  ∧ (handle_message WriterMessage.flush
      ({ buffer := [3], capacity := 5 } : BufferedWriter)).1.buffer = [] :=
  ⟨(flush_message_idempotent _).1 rfl, (flush_message_idempotent _).2.1⟩

/-- Only a Shutdown message makes handle_message request loop termination. -/
theorem handle_message_stop (m : WriterMessage) (w : BufferedWriter) :
    (handle_message m w).2.2 = true ↔ m = WriterMessage.shutdown := by
  cases m <;> simp [handle_message]

/-- Handling a Shutdown message flushes: the resulting buffer is empty. -/
theorem handle_shutdown_flushes (w : BufferedWriter) :
    (handle_message WriterMessage.shutdown w).1.buffer = [] := by
  simpa [handle_message] using flush_buffer_empty w

/-- C3: the worker loop terminates only when the trace contains a Shutdown
message or channel closure, and on every terminating run the final buffer is
empty (a flush ran last); a trace of only ticks and Data/Flush messages
never terminates the loop. -/
theorem worker_termination (es : List WorkerEvent) (w : BufferedWriter) :
    ((background_writer es w).2.2 = true →
       (WorkerEvent.closed ∈ es ∨ WorkerEvent.msg WriterMessage.shutdown ∈ es)
       ∧ (background_writer es w).1.buffer = [])
  ∧ ((WorkerEvent.closed ∉ es ∧ WorkerEvent.msg WriterMessage.shutdown ∉ es) →
       (background_writer es w).2.2 = false) := by
  induction es generalizing w with
  | nil => simp [background_writer]
  | cons e es ih =>
    cases e with
    | closed =>
      refine ⟨fun _ => ⟨Or.inl (List.mem_cons_self _ _), ?_⟩, fun h => ?_⟩
      · simpa [background_writer] using flush_buffer_empty w
      · exact absurd (List.mem_cons_self _ _) h.1
    | tick =>
      constructor
      · intro ht
        have ht2 : (background_writer es (w.flush).1).2.2 = true := by
          simpa [background_writer] using ht
        obtain ⟨hm, hb⟩ := (ih (w.flush).1).1 ht2
        refine ⟨?_, ?_⟩
        · rcases hm with h | h
          · exact Or.inl (List.mem_cons_of_mem _ h)
          · exact Or.inr (List.mem_cons_of_mem _ h)
        · simpa [background_writer] using hb
      · intro h
        have h2 := (ih (w.flush).1).2
          ⟨fun hc => h.1 (List.mem_cons_of_mem _ hc),
           fun hs => h.2 (List.mem_cons_of_mem _ hs)⟩
        simpa [background_writer] using h2
    | msg m =>
      by_cases hstop : (handle_message m w).2.2 = true
      · have hms : m = WriterMessage.shutdown := (handle_message_stop m w).mp hstop
        subst hms
        constructor
        · intro _
          refine ⟨Or.inr (List.mem_cons_self _ _), ?_⟩
          simpa [background_writer, hstop] using handle_shutdown_flushes w
        · intro h
          exact absurd (List.mem_cons_self _ _) h.2
      · have hb : (handle_message m w).2.2 = false := by
          cases hx : (handle_message m w).2.2
          · rfl
          · exact absurd hx hstop
        constructor
        · intro ht
          have ht2 : (background_writer es (handle_message m w).1).2.2 = true := by
            simpa [background_writer, hb] using ht
          obtain ⟨hm2, hbuf⟩ := (ih (handle_message m w).1).1 ht2
          refine ⟨?_, ?_⟩
          · rcases hm2 with h | h
            · exact Or.inl (List.mem_cons_of_mem _ h)
            · exact Or.inr (List.mem_cons_of_mem _ h)
          · simpa [background_writer, hb] using hbuf
        · intro h
          have h2 := (ih (handle_message m w).1).2
            ⟨fun hc => h.1 (List.mem_cons_of_mem _ hc),
             fun hs => h.2 (List.mem_cons_of_mem _ hs)⟩
          simpa [background_writer, hb] using h2

/-- Witness for C3: a Shutdown trace terminates with an empty buffer. -/
theorem worker_termination_witness :
    (background_writer [WorkerEvent.msg WriterMessage.shutdown]
        ({ buffer := [7], capacity := 100 } : BufferedWriter)).2.2 = true
  ∧ (background_writer [WorkerEvent.msg WriterMessage.shutdown]
        ({ buffer := [7], capacity := 100 } : BufferedWriter)).1.buffer = []
  ∧ (WorkerEvent.closed ∈ [WorkerEvent.msg WriterMessage.shutdown]
      ∨ WorkerEvent.msg WriterMessage.shutdown ∈ [WorkerEvent.msg WriterMessage.shutdown]) := by
  refine ⟨by decide, ?_, ?_⟩
  · exact ((worker_termination [WorkerEvent.msg WriterMessage.shutdown]
      { buffer := [7], capacity := 100 }).1 (by decide)).2
  · exact ((worker_termination [WorkerEvent.msg WriterMessage.shutdown]
      { buffer := [7], capacity := 100 }).1 (by decide)).1

/-- C2 counterexample: with capacity threshold 0 the buffer length after a
push is 0, which is not strictly below the threshold, refuting the claim's
universal "strictly below" for every buffer state. -/
theorem push_threshold_refuted :
    ¬ ((({ buffer := [], capacity := 0 } : BufferedWriter).push [1]).1.buffer.length
        < ({ buffer := [], capacity := 0 } : BufferedWriter).capacity) := by
  decide

/-- C2 (amended to a positive capacity threshold): push appends and then
flushes exactly when the threshold is reached, so afterwards the buffer
length is strictly below the threshold; a crossing push writes out the whole
appended buffer, in particular any single payload of at least threshold size
is flushed within the same push, never dropped. -/
theorem push_spec (w : BufferedWriter) (d : List Nat) (hc : 0 < w.capacity) :
    ((w.push d).1).buffer.length < w.capacity
  ∧ (w.capacity ≤ (w.buffer ++ d).length →
       (w.push d).1.buffer = [] ∧ (w.push d).2 = w.buffer ++ d)
  ∧ ((w.buffer ++ d).length < w.capacity →
       (w.push d).1.buffer = w.buffer ++ d ∧ (w.push d).2 = [])
  ∧ (w.capacity ≤ d.length → (w.push d).2 = w.buffer ++ d) := by
  by_cases hge : w.capacity ≤ (w.buffer ++ d).length
  · have hne : w.buffer ++ d ≠ [] := by
      intro h0
      rw [h0] at hge
      simp at hge
      omega
    have hemp : (w.buffer ++ d).isEmpty = false := by
      cases hcase : w.buffer ++ d with
      | nil => exact absurd hcase hne
      | cons a l => rfl
    have hpush : w.push d = ({ w with buffer := [] }, w.buffer ++ d) := by
      unfold BufferedWriter.push
      dsimp only
      split
      · unfold BufferedWriter.flush
        split
        · next hempty => simp [hemp] at hempty
        · rfl
      · next hcond => exact absurd hge hcond
    have hlenge : w.capacity ≤ w.buffer.length + d.length := by
      simpa [List.length_append] using hge
    refine ⟨?_, fun _ => ?_, fun hlt2 => ?_, fun _ => ?_⟩
    · simp [hpush]
      omega
    · simp [hpush]
    · exfalso
      rw [List.length_append] at hlt2
      omega
    · simp [hpush]
  · have hlt : (w.buffer ++ d).length < w.capacity := Nat.lt_of_not_le hge
    have hlt2 : w.buffer.length + d.length < w.capacity := by
      simpa [List.length_append] using hlt
    have hpush : w.push d = ({ w with buffer := w.buffer ++ d }, []) := by
      unfold BufferedWriter.push
      dsimp only
      split
      · next hcond => exact absurd hcond hge
      · rfl
    refine ⟨?_, fun hge2 => absurd hge2 hge, fun _ => ?_, fun hcd => ?_⟩
    · simp [hpush, List.length_append]
      omega
    · simp [hpush]
    · exfalso
      omega

/-- Witness for C2's amended theorem at a crossing push. -/
theorem push_spec_witness :
    ((({ buffer := [1], capacity := 4 } : BufferedWriter).push [2, 3, 4]).1).buffer.length < 4
  ∧ (({ buffer := [1], capacity := 4 } : BufferedWriter).push [2, 3, 4]).2 = [1, 2, 3, 4] :=
  ⟨(push_spec _ _ (by decide)).1, ((push_spec _ _ (by decide)).2.1 (by decide)).2⟩

/-- C4: write_data and flush_now are total functions of the channel state
(they never wait): they return Ok exactly when the channel is open and not
full, appending the message, and otherwise immediately return the single
BrokenPipe "closed" error. -/
theorem enqueue_nonblocking (ch : Channel) (d : List Nat) :
    ((ch.closed = false ∧ ch.queue.length < ch.cap) →
        write_data ch d = Except.ok { ch with queue := ch.queue ++ [WriterMessage.data d] }
      ∧ flush_now ch = Except.ok { ch with queue := ch.queue ++ [WriterMessage.flush] })
  ∧ ((ch.closed = true ∨ ch.cap ≤ ch.queue.length) →
        write_data ch d = Except.error IoErrorKind.brokenPipe
      ∧ flush_now ch = Except.error IoErrorKind.brokenPipe) := by
  constructor
  · rintro ⟨hc, hl⟩
    have hnot : ¬ ch.cap ≤ ch.queue.length := Nat.not_le.mpr hl
    constructor <;> simp [write_data, flush_now, Channel.try_send, hc, hnot]
  · rintro (hc | hl)
    · constructor <;> simp [write_data, flush_now, Channel.try_send, hc]
    · by_cases hcl : ch.closed = true
      · constructor <;> simp [write_data, flush_now, Channel.try_send, hcl]
      · have hcf : ch.closed = false := by
          cases hx : ch.closed
          · rfl
          · exact absurd hx hcl
        constructor <;> simp [write_data, flush_now, Channel.try_send, hcf, hl]

/-- Witness for C4: one accepted send and one rejected send on a full channel. -/
theorem enqueue_nonblocking_witness :
    write_data { queue := [], cap := 2, closed := false } [9]
      = Except.ok { queue := [WriterMessage.data [9]], cap := 2, closed := false }
  ∧ write_data { queue := [WriterMessage.flush, WriterMessage.flush], cap := 2, closed := false } [9]
      = Except.error IoErrorKind.brokenPipe :=
  ⟨((enqueue_nonblocking _ [9]).1 (by decide)).1,
   ((enqueue_nonblocking _ [9]).2 (by decide)).1⟩

/-- C10: the io::Write impl reports the full buffer length on success while
leaving the output stream untouched (the bytes are only enqueued), and
reports the BrokenPipe error, enqueueing nothing, when the channel is full
or closed. -/
theorem write_reports_full_length (s : PipeState) (buf : List Nat) :
    ((s.chan.closed = false ∧ s.chan.queue.length < s.chan.cap) →
        async_writer_write s buf
          = Except.ok
              ({ chan := { s.chan with queue := s.chan.queue ++ [WriterMessage.data buf] },
                 out := s.out }, buf.length))
  ∧ ((s.chan.closed = true ∨ s.chan.cap ≤ s.chan.queue.length) →
        async_writer_write s buf = Except.error IoErrorKind.brokenPipe) := by
  constructor
  · rintro ⟨hc, hl⟩
    have hnot : ¬ s.chan.cap ≤ s.chan.queue.length := Nat.not_le.mpr hl
    simp [async_writer_write, write_data, Channel.try_send, hc, hnot]
  · rintro (hc | hl)
    · simp [async_writer_write, write_data, Channel.try_send, hc]
    · by_cases hcl : s.chan.closed = true
      · simp [async_writer_write, write_data, Channel.try_send, hcl]
      · have hcf : s.chan.closed = false := by
          cases hx : s.chan.closed
          · rfl
          · exact absurd hx hcl
        simp [async_writer_write, write_data, Channel.try_send, hcf, hl]

/-- Witness for C10: a successful write of three bytes reports length 3 and
leaves the stream output untouched. -/
theorem write_reports_full_length_witness :
    async_writer_write
        { chan := { queue := [], cap := 4, closed := false }, out := [0] } [5, 6, 7]
      = Except.ok
          ({ chan := { queue := [WriterMessage.data [5, 6, 7]], cap := 4, closed := false },
             out := [0] }, 3) :=
  (write_reports_full_length _ [5, 6, 7]).1 (by decide)

/-- C5: in both styled and no-color modes the emitted badge plus its leading
padding has visual width exactly 9, the visual length table agrees with the
character length of the badge actually printed, and padding plus badge
length is 9, for every level and for the success badge. -/
theorem badge_visual_width (cfg : FormatterConfig) (level : Level) (is_success : Bool) :
    (visibleStr (write_level_badge cfg level is_success)).length = 9
  ∧ get_level_visual_length level is_success
      = (if is_success then SUCCESS_BADGE
         else LEVEL_BADGES.getD (level_to_index level) "").length
  ∧ (9 - get_level_visual_length level is_success)
      + (if is_success then SUCCESS_BADGE
         else LEVEL_BADGES.getD (level_to_index level) "").length = 9 := by
  obtain ⟨cs, it, sp⟩ := cfg
  cases cs <;> cases level <;> cases is_success <;> cases it <;> cases sp <;> decide

/-- Boolean equality on levels agrees with propositional equality. -/
theorem level_beq_iff (a b : Level) : (a == b) = true ↔ a = b := by
  cases a <;> cases b <;> decide

/-- C6: the derived is_success flag holds exactly when the level is INFO and
some collected field is named "success" with textual value "true". -/
theorem is_success_iff (level : Level) (fields : List (String × String)) :
    event_is_success level fields = true
  ↔ (level = Level.info ∧ ∃ p ∈ fields, p.1 = "success" ∧ p.2 = "true") := by
  unfold event_is_success has_success_field
  rw [Bool.and_eq_true, List.any_eq_true, level_beq_iff]
  constructor
  · rintro ⟨h1, p, hp, hb⟩
    rw [Bool.and_eq_true, beq_iff_eq, beq_iff_eq] at hb
    exact ⟨h1, p, hp, hb⟩
  · rintro ⟨h1, p, hp, h2, h3⟩
    refine ⟨h1, p, hp, ?_⟩
    rw [Bool.and_eq_true, beq_iff_eq, beq_iff_eq]
    exact ⟨h2, h3⟩

/-- C1 counterexample: on the ERROR event of the claim, with styling and
timestamps disabled, the formatter's output is not the claimed line (the
badge is right-aligned to width 9, and the separator after the message is a
colon, not a comma). -/
theorem error_line_claim_refuted :
    visibleStr (format_event cfg_plain "" Level.error c1_fields)
      ≠ "[ERROR] API endpoint not found, url=https://api.example.com/v1/users, status=404\n" := by
  decide

/-- C1 amended: the output is exactly one newline-terminated line with the
badge right-aligned to visual width 9 (two leading spaces), the message,
a ": " separator before the first non-message field and ", " before the
next. -/
theorem error_line_actual :
    visibleStr (format_event cfg_plain "" Level.error c1_fields)
      = "  [ERROR] API endpoint not found: url=https://api.example.com/v1/users, status=404\n" := by
  decide

/-- Case analysis of a successful scheme match. -/
theorem scheme_len_cases (l : List Char) (n : Nat) (h : scheme_len l = some n) :
    (n = 8 ∧ l.take 8 = "https://".data)
  ∨ (n = 7 ∧ l.take 7 = "http://".data)
  ∨ (n = 6 ∧ l.take 6 = "ftp://".data) := by
  unfold scheme_len at h
  split_ifs at h with h1 h2 h3
  · exact Or.inl ⟨(Option.some.inj h).symm, h1⟩
  · exact Or.inr (Or.inl ⟨(Option.some.inj h).symm, h2⟩)
  · exact Or.inr (Or.inr ⟨(Option.some.inj h).symm, h3⟩)

/-- An anchored match covers a prefix of the input, is nonempty, starts with
one of the three scheme literals, and contains no whitespace. -/
theorem urlMatch_spec (l u r : List Char) (h : urlMatch l = some (u, r)) :
    u ++ r = l ∧ u ≠ [] ∧ (scheme_len u).isSome = true
    ∧ u.all (fun c => !c.isWhitespace) = true := by
  unfold urlMatch at h
  cases hs : scheme_len l with
  | none => rw [hs] at h; cases h
  | some n =>
    rw [hs] at h
    dsimp only at h
    by_cases hrun : ((l.drop n).takeWhile (fun c => !c.isWhitespace)).isEmpty
    · rw [if_pos hrun] at h; cases h
    · rw [if_neg hrun] at h
      have hrunne : (l.drop n).takeWhile (fun c => !c.isWhitespace) ≠ [] := by
        intro h0
        rw [h0] at hrun
        exact hrun rfl
      obtain ⟨hu, hr⟩ : l.take n ++ (l.drop n).takeWhile (fun c => !c.isWhitespace) = u
          ∧ (l.drop n).dropWhile (fun c => !c.isWhitespace) = r := by
        have := Option.some.inj h
        exact ⟨congrArg Prod.fst this, congrArg Prod.snd this⟩
      subst hu
      subst hr
      refine ⟨?_, ?_, ?_, ?_⟩
      · rw [List.append_assoc, List.takeWhile_append_dropWhile, List.take_append_drop]
      · intro h0
        exact hrunne (List.append_eq_nil.mp h0).2
      · have hrw : ∀ lit : List Char, l.take n = lit →
            (l.take n ++ (l.drop n).takeWhile (fun c => !c.isWhitespace)).take lit.length
              = lit := by
          intro lit hlit
          rw [hlit, List.take_left]
        rcases scheme_len_cases l n hs with ⟨hn, hlit⟩ | ⟨hn, hlit⟩ | ⟨hn, hlit⟩ <;>
          subst hn
        · have h8 := hrw _ hlit
          unfold scheme_len
          split_ifs with a1 a2 a3 <;> simp_all
        · have h7 := hrw _ hlit
          unfold scheme_len
          split_ifs with a1 a2 a3 <;> simp_all
        · have h6 := hrw _ hlit
          unfold scheme_len
          split_ifs with a1 a2 a3 <;> simp_all
      · rw [List.all_append, Bool.and_eq_true]
        refine ⟨?_, ?_⟩
        · rcases scheme_len_cases l n hs with ⟨hn, hlit⟩ | ⟨hn, hlit⟩ | ⟨hn, hlit⟩ <;>
            subst hn <;> rw [hlit] <;> decide
        · exact List.all_takeWhile

/-- A leftmost scan splits the input, with a well-formed URL part. -/
theorem urlScan_spec (l : List Char) : ∀ b u r : List Char, urlScan l = some (b, u, r) →
    b ++ (u ++ r) = l ∧ u ≠ [] ∧ (scheme_len u).isSome = true
    ∧ u.all (fun c => !c.isWhitespace) = true := by
  induction l with
  | nil => intro b u r h; cases h
  | cons c cs ih =>
    intro b u r h
    unfold urlScan at h
    cases hm : urlMatch (c :: cs) with
    | some ur =>
      obtain ⟨u0, r0⟩ := ur
      rw [hm] at h
      obtain ⟨hb, hu, hr⟩ : ([] : List Char) = b ∧ u0 = u ∧ r0 = r := by
        have h2 := Option.some.inj h
        refine ⟨congrArg Prod.fst h2, ?_, ?_⟩
        · exact congrArg Prod.fst (congrArg Prod.snd h2)
        · exact congrArg Prod.snd (congrArg Prod.snd h2)
      subst hb; subst hu; subst hr
      have := urlMatch_spec _ _ _ hm
      exact ⟨this.1, this.2⟩
    | none =>
      rw [hm] at h
      cases hsc : urlScan cs with
      | none => rw [hsc] at h; cases h
      | some bur =>
        obtain ⟨b0, u0, r0⟩ := bur
        rw [hsc] at h
        obtain ⟨hb, hu, hr⟩ : c :: b0 = b ∧ u0 = u ∧ r0 = r := by
          have h2 := Option.some.inj h
          refine ⟨congrArg Prod.fst h2, ?_, ?_⟩
          · exact congrArg Prod.fst (congrArg Prod.snd h2)
          · exact congrArg Prod.snd (congrArg Prod.snd h2)
        subst hb; subst hu; subst hr
        obtain ⟨h1, h2, h3, h4⟩ := ih b0 u0 r0 hsc
        refine ⟨?_, h2, h3, h4⟩
        rw [List.cons_append, h1]

/-- The remainder of a leftmost match is strictly shorter than the input. -/
theorem urlScan_shrink (l b u r : List Char) (h : urlScan l = some (b, u, r)) :
    r.length < l.length := by
  obtain ⟨h1, h2, _, _⟩ := urlScan_spec l b u r h
  have hlen := congrArg List.length h1
  rw [List.length_append, List.length_append] at hlen
  cases u with
  | nil => exact absurd rfl h2
  | cons a t => simp at hlen; omega

/-- The decomposition is independent of the fuel once it exceeds the input
length. -/
theorem splitUrlsGo_congr (f1 : Nat) : ∀ (l : List Char) (f2 : Nat),
    l.length < f1 → l.length < f2 → splitUrlsGo f1 l = splitUrlsGo f2 l := by
  induction f1 with
  | zero => intro l f2 h1 _; exact absurd h1 (Nat.not_lt_zero _)
  | succ n ih =>
    intro l f2 h1 h2
    cases f2 with
    | zero => exact absurd h2 (Nat.not_lt_zero _)
    | succ k =>
      unfold splitUrlsGo
      cases hs : urlScan l with
      | none => rfl
      | some bur =>
        obtain ⟨b, u, r⟩ := bur
        dsimp only
        have hlt := urlScan_shrink l b u r hs
        rw [ih r k (by omega) (by omega)]

/-- One-step unfolding of the fuelled decomposition. -/
theorem splitUrls_eq (l : List Char) :
    splitUrls l
      = match urlScan l with
        | none => if l.isEmpty then [] else [USeg.text l]
        | some (b, u, r) =>
            (if b.isEmpty then [] else [USeg.text b]) ++ USeg.url u :: splitUrls r := by
  unfold splitUrls
  conv_lhs => unfold splitUrlsGo
  cases hs : urlScan l with
  | none => rfl
  | some bur =>
    obtain ⟨b, u, r⟩ := bur
    dsimp only
    have hlt := urlScan_shrink l b u r hs
    rw [splitUrlsGo_congr l.length r (r.length + 1) hlt (Nat.lt_succ_self _)]

/-- The format loop is independent of the fuel once it exceeds the input
length. -/
theorem formatUrlsGo_congr (f g : List Char → List Char) (f1 : Nat) :
    ∀ (l : List Char) (f2 : Nat),
    l.length < f1 → l.length < f2 → formatUrlsGo f g f1 l = formatUrlsGo f g f2 l := by
  induction f1 with
  | zero => intro l f2 h1 _; exact absurd h1 (Nat.not_lt_zero _)
  | succ n ih =>
    intro l f2 h1 h2
    cases f2 with
    | zero => exact absurd h2 (Nat.not_lt_zero _)
    | succ k =>
      unfold formatUrlsGo
      cases hs : urlScan l with
      | none => rfl
      | some bur =>
        obtain ⟨b, u, r⟩ := bur
        dsimp only
        have hlt := urlScan_shrink l b u r hs
        rw [ih r k (by omega) (by omega)]

/-- The format loop equals styling the decomposition piecewise. -/
theorem formatUrlsGo_renders (f g : List Char → List Char) (l : List Char) :
    formatUrlsGo f g (l.length + 1) l = renderSegs f g (splitUrls l) := by
  rw [splitUrls_eq]
  conv_lhs => unfold formatUrlsGo
  cases hs : urlScan l with
  | none =>
    by_cases he : l.isEmpty = true <;> simp [he, renderSegs]
  | some bur =>
    obtain ⟨b, u, r⟩ := bur
    dsimp only
    have hlt := urlScan_shrink l b u r hs
    have hcong : formatUrlsGo f g l.length r = formatUrlsGo f g (r.length + 1) r :=
      formatUrlsGo_congr f g l.length r (r.length + 1) hlt (Nat.lt_succ_self _)
    have ih := formatUrlsGo_renders f g r
    rw [hcong, ih]
    by_cases hb : b.isEmpty = true <;> simp [renderSegs, hb]
termination_by l.length
decreasing_by exact hlt

/-- format_urls on a nonempty input styles the decomposition piecewise and
concatenates in original order. -/
theorem format_urls_renders (l : List Char) (f g : List Char → List Char) (hl : l ≠ []) :
    format_urls l f g = renderSegs f g (splitUrls l) := by
  unfold format_urls
  rw [splitUrls_eq]
  cases hs : urlScan l with
  | none =>
    have he : l.isEmpty = false := by
      cases hc : l with
      | nil => exact absurd hc hl
      | cons a t => rfl
    simp [he, renderSegs]
  | some bur =>
    obtain ⟨b, u, r⟩ := bur
    dsimp only
    rw [formatUrlsGo_renders f g r]
    by_cases hb : b.isEmpty = true <;> simp [renderSegs, hb]

/-- The decomposition concatenates back to the original string. -/
theorem joinSegs_splitUrls (l : List Char) : joinSegs (splitUrls l) = l := by
  rw [splitUrls_eq]
  cases hs : urlScan l with
  | none =>
    by_cases he : l.isEmpty = true
    · rw [List.isEmpty_iff] at he
      simp [joinSegs, he]
    · simp [joinSegs, USeg.content, he]
  | some bur =>
    obtain ⟨b, u, r⟩ := bur
    dsimp only
    have h1 := (urlScan_spec l b u r hs).1
    have hlt := urlScan_shrink l b u r hs
    have ih := joinSegs_splitUrls r
    have ih2 : (List.map USeg.content (splitUrls r)).flatten = r := by
      simpa [joinSegs] using ih
    by_cases hb : b.isEmpty = true
    · rw [List.isEmpty_iff] at hb
      subst hb
      simpa [joinSegs, USeg.content, ih2] using h1
    · simp only [hb, if_false]
      simpa [joinSegs, USeg.content, ih2, List.append_assoc] using h1
termination_by l.length
decreasing_by exact hlt

/-- Styling a decomposition with the identity functions is concatenation. -/
theorem renderSegs_id (segs : List USeg) :
    renderSegs (fun t => t) (fun u => u) segs = joinSegs segs := by
  induction segs with
  | nil => rfl
  | cons s ss ih =>
    cases s <;> simp [renderSegs, joinSegs, USeg.content] at ih ⊢ <;> exact ih

/-- Every URL piece of the decomposition starts with one of the three
schemes and contains no whitespace. -/
theorem splitUrls_url_wf (l : List Char) :
    ∀ u, USeg.url u ∈ splitUrls l →
      (scheme_len u).isSome = true ∧ u.all (fun c => !c.isWhitespace) = true := by
  rw [splitUrls_eq]
  cases hs : urlScan l with
  | none =>
    intro u hu
    by_cases he : l.isEmpty = true <;> simp [he] at hu
  | some bur =>
    obtain ⟨b, u0, r⟩ := bur
    dsimp only
    have hspec := urlScan_spec l b u0 r hs
    have hlt := urlScan_shrink l b u0 r hs
    have ih := splitUrls_url_wf r
    intro u hu
    rw [List.mem_append] at hu
    rcases hu with hu | hu
    · by_cases hb : b.isEmpty = true <;> simp [hb] at hu
    · rw [List.mem_cons] at hu
      rcases hu with hu | hu
      · obtain rfl : u = u0 := by
          cases hu
          rfl
        exact ⟨hspec.2.2.1, hspec.2.2.2⟩
      · exact ih u hu
termination_by l.length
decreasing_by exact hlt

/-- C8: format_urls decomposes the input into maximal URL matches (runs
starting with a scheme, whitespace-free) and the text around them, styles
URL pieces with the URL styler and the rest with the text styler,
concatenating in original order; the decomposition rebuilds the input, and
with identity stylers format_urls is the identity. -/
theorem format_urls_spec (l : List Char) (f g : List Char → List Char) :
    joinSegs (splitUrls l) = l
  ∧ (l ≠ [] → format_urls l f g = renderSegs f g (splitUrls l))
  ∧ format_urls l (fun t => t) (fun u => u) = l
  ∧ (∀ u, USeg.url u ∈ splitUrls l →
        (scheme_len u).isSome = true ∧ u.all (fun c => !c.isWhitespace) = true) := by
  refine ⟨joinSegs_splitUrls l, fun hl => format_urls_renders l f g hl, ?_, splitUrls_url_wf l⟩
  by_cases hl : l = []
  · subst hl; rfl
  · rw [format_urls_renders l _ _ hl, renderSegs_id, joinSegs_splitUrls]

/-- Witness for C8 on a concrete mixed string. -/
theorem format_urls_spec_witness :
    format_urls ("x http://a y".data) (fun t => t) (fun u => u)
      = renderSegs (fun t => t) (fun u => u) (splitUrls ("x http://a y".data)) :=
  (format_urls_spec ("x http://a y".data) (fun t => t) (fun u => u)).2.1 (by decide)

/-- Rebuilding a string from its character data. -/
theorem mk_data (s : String) : String.mk s.data = s := by
  obtain ⟨d⟩ := s
  rfl

/-- String construction commutes with list append. -/
theorem mk_append (a b : List Char) : String.mk (a ++ b) = String.mk a ++ String.mk b := rfl

/-- Visible text of an empty output. -/
theorem visibleStr_nil : visibleStr [] = "" := rfl

/-- Visible text of a cons. -/
theorem visibleStr_cons (x : Seg) (xs : List Seg) :
    visibleStr (x :: xs) = visibleSeg x ++ visibleStr xs := by
  unfold visibleStr
  rw [List.map_cons, List.flatten_cons, mk_append]

/-- Visible text distributes over appending outputs. -/
theorem visibleStr_append (a b : List Seg) :
    visibleStr (a ++ b) = visibleStr a ++ visibleStr b := by
  unfold visibleStr
  rw [List.map_append, List.flatten_append]
  rfl

/-- Visible text of a single segment. -/
theorem visibleStr_singleton (x : Seg) : visibleStr [x] = visibleSeg x := by
  unfold visibleStr
  simp [mk_data]

/-- The timestamp segment shows the clock text in both modes. -/
theorem visible_timestamp (cfg : FormatterConfig) (ts : String) :
    visibleStr (write_timestamp cfg ts) = ts := by
  unfold write_timestamp
  split <;> rw [visibleStr_singleton] <;> rfl

/-- The URL-aware cause value rendering shows exactly the decomposition
contents. -/
theorem visible_cause_map (segs : List USeg) :
    visibleStr (segs.map (fun s =>
      match s with
      | .text t => Seg.plain (String.mk t)
      | .url u =>
          Seg.styled { color := .truecolor 255 165 0, italic := true, underline := true }
            (String.mk u)))
    = String.mk (joinSegs segs) := by
  induction segs with
  | nil => rfl
  | cons s ss ih =>
    rw [List.map_cons, visibleStr_cons, ih]
    cases s <;> simp [visibleSeg, joinSegs, USeg.content, mk_append]

/-- The visible text of the cause line: optional timestamp, the padded
CAUSE badge, the cause text, and the newline. -/
theorem visible_write_cause_line (cfg : FormatterConfig) (ts v : String) :
    visibleStr (write_cause_line cfg ts v)
      = (if cfg.include_timestamps then ts ++ " " else "") ++ "  [CAUSE] " ++ v ++ "\n" := by
  unfold write_cause_line
  dsimp only
  rw [visibleStr_append, visibleStr_append, visibleStr_append]
  have hts : visibleStr
      (if cfg.include_timestamps then write_timestamp cfg ts ++ [Seg.plain " "] else [])
      = (if cfg.include_timestamps then ts ++ " " else "") := by
    by_cases ht : cfg.include_timestamps = true
    · rw [if_pos ht, if_pos ht, visibleStr_append, visible_timestamp, visibleStr_singleton]
      rfl
    · rw [if_neg ht, if_neg ht, visibleStr_nil]
  have hbadge : visibleStr
      (if use_colors cfg then
        [Seg.plain (spacesStr (9 - 7)),
         Seg.styled { color := .truecolor 255 165 0, bold := true } CAUSE_BADGE,
         Seg.plain " "]
       else [Seg.plain (padTo9 CAUSE_BADGE ++ " ")])
      = "  [CAUSE] " := by
    cases hu : use_colors cfg <;> simp [hu] <;> decide
  have hvalue : visibleStr
      (if use_colors cfg && contains_url v then
        (splitUrls v.data).map (fun s =>
          match s with
          | .text t => Seg.plain (String.mk t)
          | .url u =>
              Seg.styled { color := .truecolor 255 165 0, italic := true, underline := true }
                (String.mk u))
       else [Seg.plain v])
      = v := by
    cases hc : use_colors cfg && contains_url v
    · rw [if_neg (by simp), visibleStr_singleton]
      rfl
    · rw [if_pos rfl, visible_cause_map, joinSegs_splitUrls, mk_data]
  rw [hts, hbadge, hvalue, visibleStr_singleton]
  rfl

/-- get_cause_value returns the first field named "cause" in emission
order. -/
theorem get_cause_value_first (pre post : List (String × String)) (v : String) :
    (∀ p ∈ pre, p.1 ≠ "cause") → get_cause_value (pre ++ ("cause", v) :: post) = some v := by
  induction pre with
  | nil =>
    intro _
    simp [get_cause_value]
  | cons q qs ih =>
    intro hpre
    have hq : (q.1 == "cause") = false := by
      rw [beq_eq_false_iff_ne]
      exact hpre q (List.mem_cons_self _ _)
    have ih2 := ih (fun p hp => hpre p (List.mem_cons_of_mem _ hp))
    rw [List.cons_append]
    unfold get_cause_value at ih2 ⊢
    rw [List.find?_cons, hq]
    exact ih2

/-- C7: for every event whose fields contain a "cause" field, the formatter
emits the main newline-terminated line followed by the cause line built from
the value of the first such field; the cause line's visible text is the
padded CAUSE badge followed by that value, newline-terminated. -/
theorem cause_line_spec (cfg : FormatterConfig) (ts : String) (level : Level)
    (pre post : List (String × String)) (v : String)
    (hpre : ∀ p ∈ pre, p.1 ≠ "cause") :
    get_cause_value (pre ++ ("cause", v) :: post) = some v
  ∧ (∃ main, format_event cfg ts level (pre ++ ("cause", v) :: post)
        = main ++ write_cause_line cfg ts v
      ∧ ∃ front, main = front ++ [Seg.plain "\n"])
  ∧ visibleStr (write_cause_line cfg ts v)
      = (if cfg.include_timestamps then ts ++ " " else "") ++ "  [CAUSE] " ++ v ++ "\n" := by
  have hget := get_cause_value_first pre post v hpre
  refine ⟨hget, ?_, visible_write_cause_line cfg ts v⟩
  have hsimple : is_simple_message (pre ++ ("cause", v) :: post) = false := by
    cases pre with
    | nil =>
      have hne : (("cause" : String) == "message") = false := by decide
      simp [is_simple_message, hne]
    | cons q qs =>
      have hlen : ((q :: qs ++ ("cause", v) :: post).length == 1) = false := by
        rw [beq_eq_false_iff_ne]
        simp [List.length_append]
      simp [is_simple_message, hlen]
  have hcond : ¬ ((is_simple_message (pre ++ ("cause", v) :: post)
      && !cfg.include_timestamps) = true) := by
    rw [hsimple]
    simp
  unfold format_event
  dsimp only
  rw [if_neg hcond, hget]
  exact ⟨_, rfl, _, rfl⟩

/-- Witness for C7 on the concrete two-field ERROR event. -/
theorem cause_line_spec_witness :
    get_cause_value ([("message", "x")] ++ ("cause", "disk full") :: []) = some "disk full"
  ∧ (∃ main, format_event cfg_plain "" Level.error
        ([("message", "x")] ++ ("cause", "disk full") :: [])
        = main ++ write_cause_line cfg_plain "" "disk full"
      ∧ ∃ front, main = front ++ [Seg.plain "\n"])
  ∧ visibleStr (write_cause_line cfg_plain "" "disk full")
      = (if cfg_plain.include_timestamps then "" ++ " " else "")
          ++ "  [CAUSE] " ++ "disk full" ++ "\n" :=
  cause_line_spec cfg_plain "" Level.error [("message", "x")] [] "disk full" (by decide)

end BAADCore
